import Mathlib

/-!
Shallow embedding of the GPS tracker server core
(`processLocationUpdate`, the in-memory device stores, the WebSocket
fan-out, the `/api/track` route and the SQL history pruning), together
with theorems settling the specification claims about it.

JavaScript numbers are modelled as rationals (`ℚ`); `NaN` results of
`parseFloat`/`parseInt` are modelled as `none` of an `Option`.  JS `Map`s
are modelled as insertion-ordered association lists.
-/

namespace GPSTracker

/-- A JavaScript value as it can occur in an inbound payload field.
`null` also stands for `undefined` / an absent field. -/
inductive JVal where
  | null : JVal
  | num : ℚ → JVal
  | str : String → JVal
deriving DecidableEq, Repr

/-- JS truthiness: `undefined`/`null`, `0` and `""` are falsy. -/
def truthy : JVal → Bool
  | .null => false
  | .num q => decide (q ≠ 0)
  | .str s => decide (s ≠ "")

/-- The leading run of decimal digits of a character list. -/
def decDigits (cs : List Char) : List Char := cs.takeWhile (fun c => c.isDigit)

/-- Value of a list of decimal digits. -/
def digitsToNat (cs : List Char) : ℕ :=
  cs.foldl (fun a c => 10 * a + (c.toNat - 48)) 0

/-- Model of JS `parseFloat` on a string: optional sign, then decimal
digits with an optional fractional part, any trailing garbage ignored;
`none` models `NaN` (no digits at all). -/
def parseFloatStr (s : String) : Option ℚ :=
  let cs := s.toList
  let sign : ℚ := if cs.head? = some '-' then -1 else 1
  let rest := if cs.head? = some '-' ∨ cs.head? = some '+' then cs.drop 1 else cs
  let intPart := decDigits rest
  let rest2 := rest.drop intPart.length
  let fracPart := if rest2.head? = some '.' then decDigits (rest2.drop 1) else []
  if intPart.isEmpty ∧ fracPart.isEmpty then none
  else some (sign * ((digitsToNat intPart : ℚ) + (digitsToNat fracPart : ℚ) / (10 ^ fracPart.length)))

/-- Model of JS `parseInt` on a string: optional sign then decimal digit
run; `none` models `NaN`. -/
def parseIntStr (s : String) : Option ℤ :=
  let cs := s.toList
  let sign : ℤ := if cs.head? = some '-' then -1 else 1
  let rest := if cs.head? = some '-' ∨ cs.head? = some '+' then cs.drop 1 else cs
  let ds := decDigits rest
  if ds.isEmpty then none else some (sign * (digitsToNat ds : ℤ))

/-- Truncation toward zero, as JS number-to-integer conversion does. -/
def ratTrunc (q : ℚ) : ℤ := if 0 ≤ q then Int.floor q else -Int.floor (-q)

/-- JS `parseFloat` applied to a value: numbers pass through, strings are
parsed, `undefined`/`null` gives `NaN` (`none`). -/
def jsParseFloat : JVal → Option ℚ
  | .null => none
  | .num q => some q
  | .str s => parseFloatStr s

/-- JS `parseInt` applied to a value: a number is stringified and its
integer part parsed back (truncation toward zero), a string is parsed,
`undefined`/`null` gives `NaN`. -/
def jsParseInt : JVal → Option ℤ
  | .null => none
  | .num q => some (ratTrunc q)
  | .str s => parseIntStr s

/-- The canonical position record built by `processLocationUpdate`.
`lat`/`lng` keep the raw `parseFloat` result (`none` = `NaN`, there is no
fallback for them in the source); `timestamp` keeps the raw `ts` value
verbatim when `ts` is truthy (`ts || Date.now()`). -/
structure Position where
  device_id : JVal
  lat : Option ℚ
  lng : Option ℚ
  speed : ℚ
  heading : ℤ
  sats : ℤ
  timestamp : JVal
deriving DecidableEq, Repr

/-- An inbound payload (`data` of `processLocationUpdate` / the body of
`POST /api/track`): the seven destructured fields, `null` for absent. -/
structure RawData where
  device_id : JVal := .null
  lat : JVal := .null
  lng : JVal := .null
  speed : JVal := .null
  heading : JVal := .null
  sats : JVal := .null
  ts : JVal := .null
deriving DecidableEq, Repr

/-- The acceptance test of `processLocationUpdate`:
`if (!device_id || !lat || !lng) return;`. -/
def validData (d : RawData) : Bool :=
  truthy d.device_id && truthy d.lat && truthy d.lng

/-- The `position` object built from an accepted payload, `now` being
`Date.now()` in epoch milliseconds.  `parseFloat(speed) || 0` maps `NaN`
to `0` and leaves every other number unchanged (`0 || 0` is `0`), hence
`Option.getD 0`; likewise for `parseInt` on `heading`/`sats`. -/
def mkPosition (d : RawData) (now : ℤ) : Position :=
  { device_id := d.device_id
    lat := jsParseFloat d.lat
    lng := jsParseFloat d.lng
    speed := (jsParseFloat d.speed).getD 0
    heading := (jsParseInt d.heading).getD 0
    sats := (jsParseInt d.sats).getD 0
    timestamp := if truthy d.ts then d.ts else .num (now : ℚ) }

/-- Lookup in an insertion-ordered association list (JS `Map.get`). -/
def alookup {α β : Type} [DecidableEq α] : List (α × β) → α → Option β
  | [], _ => none
  | (k, v) :: rest, key => if k = key then some v else alookup rest key

/-- JS `Map.set`: replace in place when the key exists (keeping its
insertion position), append otherwise. -/
def aset {α β : Type} [DecidableEq α] : List (α × β) → α → β → List (α × β)
  | [], key, v => [(key, v)]
  | (k, w) :: rest, key, v =>
      if k = key then (k, v) :: rest else (k, w) :: aset rest key v

/-- A WebSocket client as the broadcaster sees it: an identity and
whether `readyState === WebSocket.OPEN`. -/
structure Sink where
  sid : ℕ
  isOpen : Bool
deriving DecidableEq, Repr

/-- A message sent over the push channel. -/
inductive Msg where
  | snapshot (devices : List Position)
  | update (device : Position)
deriving DecidableEq, Repr

/-- The server's mutable state: the two in-memory maps, the two counters
of `serverStats` the claims mention, the WebSocket client set, and the
messages delivered so far to each client id. -/
structure ServerState where
  devicePositions : List (JVal × Position) := []
  deviceHistory : List (JVal × List Position) := []
  totalDevices : ℕ := 0
  totalPositions : ℕ := 0
  wsClients : List Sink := []
  inboxes : List (ℕ × List Msg) := []
deriving DecidableEq, Repr

/-- Append a message to one sink's delivered-message list. -/
def deliver (ib : List (ℕ × List Msg)) (sid : ℕ) (m : Msg) : List (ℕ × List Msg) :=
  aset ib sid ((alookup ib sid).getD [] ++ [m])

/-- `broadcastUpdate(position)`: send one `update` message to every
currently registered client whose socket is open. -/
def broadcastUpdate (pos : Position) (st : ServerState) : ServerState :=
  { st with
    inboxes := st.wsClients.foldl
      (fun ib w => if w.isOpen then deliver ib w.sid (Msg.update pos) else ib)
      st.inboxes }

/-- `processLocationUpdate(data)` with history bound `H`
(`config.historyPoints`) and wall clock `now`.  Mirrors the source order:
validate, build `position`, set `devicePositions`, append to the history
and splice it down to the last `H` entries, broadcast, then bump the
counters — where the `!devicePositions.has(device_id)` guard runs on the
map that was already updated above. -/
def processLocationUpdate (H : ℕ) (d : RawData) (now : ℤ) (st : ServerState) : ServerState :=
  if validData d then
    let pos := mkPosition d now
    let positions1 := aset st.devicePositions d.device_id pos
    let hist1 := (alookup st.deviceHistory d.device_id).getD [] ++ [pos]
    let hist2 := if hist1.length > H then hist1.drop (hist1.length - H) else hist1
    let st1 := { st with
      devicePositions := positions1
      deviceHistory := aset st.deviceHistory d.device_id hist2 }
    let st2 := broadcastUpdate pos st1
    { st2 with
      totalPositions := st2.totalPositions + 1
      totalDevices :=
        if (alookup st2.devicePositions d.device_id).isNone
        then st2.totalDevices + 1 else st2.totalDevices }
  else st

/-- A new WebSocket connection: register the sink, then send it the
current snapshot — but only when at least one device is known. -/
def wsConnect (sid : ℕ) (st : ServerState) : ServerState :=
  let st1 := { st with wsClients := st.wsClients ++ [⟨sid, true⟩] }
  let snap := st.devicePositions.map Prod.snd
  if snap.length > 0 then
    { st1 with inboxes := deliver st1.inboxes sid (Msg.snapshot snap) }
  else st1

/-- A WebSocket close/error: the sink is removed from the registry. -/
def wsDisconnect (sid : ℕ) (st : ServerState) : ServerState :=
  { st with wsClients := st.wsClients.filter (fun w => decide (w.sid ≠ sid)) }

/-- An externally triggered event of the ingestion/fan-out pipeline. -/
inductive Event where
  | ingest (d : RawData) (now : ℤ)
  | connect (sid : ℕ)
  | disconnect (sid : ℕ)
deriving DecidableEq, Repr

/-- One event step of the server. -/
def step (H : ℕ) (st : ServerState) : Event → ServerState
  | .ingest d now => processLocationUpdate H d now st
  | .connect sid => wsConnect sid st
  | .disconnect sid => wsDisconnect sid st

/-- The state at process start: both maps empty, counters zero. -/
def initState : ServerState := {}

/-- The server state after a sequence of events from process start. -/
def run (H : ℕ) (es : List Event) : ServerState := es.foldl (step H) initState

/-- The in-memory history of one device (empty when unknown). -/
def historyOf (dev : JVal) (st : ServerState) : List Position :=
  (alookup st.deviceHistory dev).getD []

/-- The messages delivered so far to one sink id. -/
def inboxOf (sid : ℕ) (st : ServerState) : List Msg :=
  (alookup st.inboxes sid).getD []

/-- The positions a device got accepted over an event sequence, in
arrival order (`mkPosition` is a pure function of payload and clock). -/
def acceptedPositions (dev : JVal) (es : List Event) : List Position :=
  es.filterMap (fun e => match e with
    | .ingest d now =>
        if validData d ∧ d.device_id = dev then some (mkPosition d now) else none
    | _ => none)

/-- The device ids of all accepted ingest events, in arrival order. -/
def acceptedIds (es : List Event) : List JVal :=
  es.filterMap (fun e => match e with
    | .ingest d _ => if validData d then some d.device_id else none
    | _ => none)

/-- The last `H` elements of a list (all of it when it is shorter). -/
def lastN (H : ℕ) (l : List Position) : List Position := l.drop (l.length - H)

/-- Is some open sink with this id registered? -/
def openMem (clients : List Sink) (sid : ℕ) : Bool :=
  clients.any (fun w => w.sid == sid && w.isOpen)

/-- A device payload with integer-valued coordinates, used to
instantiate universally quantified theorems at a concrete input. -/
def dD1 : RawData := { device_id := .str "D1", lat := .num 1, lng := .num 2 }

/-- Payload with all three required fields present and numerically
coercible, but with latitude 0 (the equator). -/
def dLatZero : RawData := { device_id := .str "D1", lat := .num 0, lng := .num 5 }

/-- Payload with a truthy but non-numeric latitude. -/
def dLatAbc : RawData := { device_id := .str "D1", lat := .str "abc", lng := .num 2 }

/-- `40.7128` as a rational in lowest terms. -/
def latD1 : ℚ := ⟨50891, 1250, by decide, by decide⟩

/-- `-74.0060` as a rational in lowest terms. -/
def lngD1 : ℚ := ⟨-37003, 500, by decide, by decide⟩

/-- The spec's accepted example payload
`{device_id:"D1", lat:40.7128, lng:-74.0060}`. -/
def dExample : RawData := { device_id := .str "D1", lat := .num latD1, lng := .num lngD1 }

/-- The spec's rejected example payload `{lat: 40.0}`. -/
def dLatOnly : RawData := { lat := .num 40 }

/-- Payload whose `ts` is a truthy, non-numeric string. -/
def dTsStr : RawData :=
  { device_id := .str "D1", lat := .num 1, lng := .num 2, ts := .str "abc" }

/-- A `POST /api/track` request: the parsed JSON body, the
`X-Device-Token` header value and the `token` query parameter. -/
structure TrackRequest where
  body : RawData
  headerToken : Option String := none
  queryToken : Option String := none
deriving DecidableEq, Repr

/-- The HTTP outcome of the `/api/track` handler: 200, 400 or 401. -/
inductive TrackStatus where
  | ok
  | badRequest
  | unauthorized
deriving DecidableEq, Repr

/-- `req.headers['x-device-token'] || req.query.token`: the header value
when truthy (present and non-empty), else the query parameter. -/
def resolveToken (req : TrackRequest) : Option String :=
  match req.headerToken with
  | some h => if h = "" then req.queryToken else some h
  | none => req.queryToken

/-- The `POST /api/track` handler: reject 400 when a required body field
is falsy, then reject 401 when the resolved token is not exactly the
configured shared secret, else process the update and answer 200. -/
def handleTrack (H : ℕ) (secret : String) (req : TrackRequest) (now : ℤ)
    (st : ServerState) : TrackStatus × ServerState :=
  if validData req.body = false then (.badRequest, st)
  else if resolveToken req ≠ some secret then (.unauthorized, st)
  else (.ok, processLocationUpdate H req.body now st)

/-- A registry with one open sink (id 1) and one closed sink (id 2). -/
def stC4 : ServerState := { wsClients := [⟨1, true⟩, ⟨2, false⟩] }

/-- A valid body submitted with a wrong query token and no header. -/
def reqBadToken : TrackRequest := { body := dD1, queryToken := some "bad" }

/-- A request missing `device_id` and `lng`, with no token at all. -/
def reqMissing : TrackRequest := { body := dLatOnly }

/-- One row of the durable `positions` table: the `id` column (SQLite
rowid, here `rid`), `device_id` and `timestamp` — the columns the
pruning statement `cleanupSQL` uses. -/
structure Row where
  rid : ℕ
  device_id : JVal
  timestamp : ℤ
deriving DecidableEq, Repr

/-- `a` sorts before-or-equal `b` under `ORDER BY timestamp DESC` as
SQLite returns it through a backward scan of the timestamp index:
larger timestamp first, ties on timestamp by larger rowid first (index
entries with equal key are stored in rowid order and scanned backward). -/
def rowLE (a b : Row) : Prop :=
  b.timestamp < a.timestamp ∨ (b.timestamp = a.timestamp ∧ b.rid ≤ a.rid)

/-- `a` sorts strictly before `b` in the same order. -/
def rowLT (a b : Row) : Prop :=
  b.timestamp < a.timestamp ∨ (b.timestamp = a.timestamp ∧ b.rid < a.rid)

instance : DecidableRel rowLE := fun a b => by
  unfold rowLE
  infer_instance

instance : DecidableRel rowLT := fun a b => by
  unfold rowLT
  infer_instance

instance : IsTotal Row rowLE :=
  ⟨fun a b => by
    unfold rowLE
    omega⟩

instance : IsTrans Row rowLE :=
  ⟨fun a b c hab hbc => by
    unfold rowLE at hab hbc ⊢
    omega⟩

/-- The result order of `SELECT id ... ORDER BY timestamp DESC`. -/
def sortRows (l : List Row) : List Row := List.insertionSort rowLE l

/-- The rows of one device, in table order. -/
def rowsOf (did : JVal) (tbl : List Row) : List Row :=
  tbl.filter (fun r => decide (r.device_id = did))

/-- The inner SELECT of `cleanupSQL`: the ids of the device's first
`historyPoints` rows ordered by timestamp descending. -/
def keepIds (H : ℕ) (did : JVal) (tbl : List Row) : List ℕ :=
  ((sortRows (rowsOf did tbl)).take H).map Row.rid

/-- `cleanupSQL`: `DELETE FROM positions WHERE device_id = ? AND id NOT
IN (SELECT id FROM positions WHERE device_id = ? ORDER BY timestamp
DESC LIMIT ?)`; survivors keep table order. -/
def pruneDevice (H : ℕ) (did : JVal) (tbl : List Row) : List Row :=
  tbl.filter (fun r => decide (¬ r.device_id = did ∨ r.rid ∈ keepIds H did tbl))

/-- A table with two rows tied on timestamp (rowids 1 and 2), an older
row (rowid 3) and another device's row (rowid 4). -/
def tbl0 : List Row :=
  [⟨1, .str "A", 10⟩, ⟨2, .str "A", 10⟩, ⟨3, .str "A", 5⟩, ⟨4, .str "B", 7⟩]

theorem alookup_aset_self {α β : Type} [DecidableEq α] (l : List (α × β)) (k : α) (v : β) :
    alookup (aset l k v) k = some v := by
  induction l with
  | nil => simp [aset, alookup]
  | cons p rest ih =>
    obtain ⟨k', w⟩ := p
    by_cases h : k' = k
    · simp [aset, h, alookup]
    · simp [aset, h, alookup, ih]

theorem alookup_aset_ne {α β : Type} [DecidableEq α] (l : List (α × β)) (k k' : α) (v : β)
    (h : k' ≠ k) : alookup (aset l k v) k' = alookup l k' := by
  induction l with
  | nil => simp [aset, alookup, Ne.symm h]
  | cons p rest ih =>
    obtain ⟨k'', w⟩ := p
    by_cases hk : k'' = k
    · subst hk
      simp [aset, alookup, Ne.symm h]
    · simp only [aset, if_neg hk, alookup]
      by_cases hk2 : k'' = k'
      · simp [hk2]
      · simp [hk2, ih]

theorem alookup_eq_none_iff {α β : Type} [DecidableEq α] (l : List (α × β)) (k : α) :
    alookup l k = none ↔ k ∉ l.map Prod.fst := by
  induction l with
  | nil => simp [alookup]
  | cons p rest ih =>
    obtain ⟨k', w⟩ := p
    by_cases h : k' = k
    · simp [alookup, h]
    · simp [alookup, h, ih, Ne.symm h]

theorem keys_aset {α β : Type} [DecidableEq α] (l : List (α × β)) (k : α) (v : β) :
    (aset l k v).map Prod.fst =
      if k ∈ l.map Prod.fst then l.map Prod.fst else l.map Prod.fst ++ [k] := by
  induction l with
  | nil => simp [aset]
  | cons p rest ih =>
    obtain ⟨k', w⟩ := p
    by_cases h : k' = k
    · simp [aset, h]
    · simp only [aset, if_neg h, List.map_cons, ih]
      by_cases hm : k ∈ rest.map Prod.fst
      · simp [hm, h, Ne.symm h]
      · simp [hm, h, Ne.symm h]

theorem nodup_keys_aset {α β : Type} [DecidableEq α] (l : List (α × β)) (k : α) (v : β)
    (h : (l.map Prod.fst).Nodup) : ((aset l k v).map Prod.fst).Nodup := by
  rw [keys_aset]
  by_cases hm : k ∈ l.map Prod.fst
  · simpa [hm] using h
  · rw [if_neg hm, List.nodup_append]
    refine ⟨h, List.nodup_singleton _, ?_⟩
    intro a ha hb
    simp only [List.mem_singleton] at hb
    subst hb
    exact hm ha

theorem getD_alookup_deliver_self (ib : List (ℕ × List Msg)) (sid : ℕ) (m : Msg) :
    (alookup (deliver ib sid m) sid).getD [] = (alookup ib sid).getD [] ++ [m] := by
  simp [deliver, alookup_aset_self]

theorem alookup_deliver_ne (ib : List (ℕ × List Msg)) (sid sid' : ℕ) (m : Msg)
    (h : sid' ≠ sid) : alookup (deliver ib sid m) sid' = alookup ib sid' := by
  simp [deliver, alookup_aset_ne _ _ _ _ h]

/-- Effect of the broadcast fold on one sink's delivered messages, for a
registry with pairwise distinct sink ids: exactly one copy of the message
is appended when the sink is registered and open, nothing otherwise. -/
theorem inbox_broadcast_foldl (clients : List Sink) (msg : Msg) (ib : List (ℕ × List Msg))
    (sid : ℕ) (hnd : (clients.map Sink.sid).Nodup) :
    (alookup (clients.foldl (fun ib w => if w.isOpen then deliver ib w.sid msg else ib) ib)
        sid).getD [] =
      (alookup ib sid).getD [] ++ (if openMem clients sid then [msg] else []) := by
  induction clients generalizing ib with
  | nil => simp [openMem]
  | cons w ws ih =>
    simp only [List.map_cons, List.nodup_cons] at hnd
    obtain ⟨hw, hnd'⟩ := hnd
    rw [List.foldl_cons]
    by_cases hsid : w.sid = sid
    · have hmem : openMem ws sid = false := by
        rw [openMem, List.any_eq_false]
        intro x hx
        simp only [Bool.and_eq_true, beq_iff_eq, not_and]
        intro hxsid
        exact (hw (by rw [hsid, ← hxsid]; exact List.mem_map_of_mem Sink.sid hx)).elim
      by_cases hopen : w.isOpen = true
      · rw [if_pos hopen, ih _ hnd', hmem, hsid, getD_alookup_deliver_self]
        have ho : openMem (w :: ws) sid = true := by
          simp [openMem, List.any_cons, hsid, hopen]
        rw [ho]
        simp
      · rw [if_neg hopen, ih _ hnd', hmem]
        rw [Bool.not_eq_true] at hopen
        have ho : openMem (w :: ws) sid = false := by
          simpa [openMem, List.any_cons, hopen] using hmem
        rw [ho]
    · have heq : openMem (w :: ws) sid = openMem ws sid := by
        simp [openMem, List.any_cons, hsid]
      by_cases hopen : w.isOpen = true
      · rw [if_pos hopen, ih _ hnd', heq, alookup_deliver_ne _ _ _ _ (Ne.symm hsid)]
      · rw [if_neg hopen, ih _ hnd', heq]

/-- The history splice of the source equals "keep the last `H`". -/
theorem splice_eq_lastN (H : ℕ) (l : List Position) :
    (if l.length > H then l.drop (l.length - H) else l) = lastN H l := by
  unfold lastN
  by_cases h : l.length > H
  · simp [h]
  · have : l.length - H = 0 := by omega
    simp [h, this]

theorem proc_not_valid (H : ℕ) (d : RawData) (now : ℤ) (st : ServerState)
    (h : validData d = false) : processLocationUpdate H d now st = st := by
  simp [processLocationUpdate, h]

theorem proc_devicePositions (H : ℕ) (d : RawData) (now : ℤ) (st : ServerState)
    (h : validData d = true) :
    (processLocationUpdate H d now st).devicePositions =
      aset st.devicePositions d.device_id (mkPosition d now) := by
  simp [processLocationUpdate, h, broadcastUpdate]

theorem proc_deviceHistory (H : ℕ) (d : RawData) (now : ℤ) (st : ServerState)
    (h : validData d = true) :
    (processLocationUpdate H d now st).deviceHistory =
      aset st.deviceHistory d.device_id
        (lastN H (historyOf d.device_id st ++ [mkPosition d now])) := by
  have key : ∀ (l : List Position) (p : Position),
      (if l.length + 1 > H then (l ++ [p]).drop (l.length + 1 - H) else l ++ [p]) =
        lastN H (l ++ [p]) := by
    intro l p
    simpa using splice_eq_lastN H (l ++ [p])
  simp [processLocationUpdate, h, broadcastUpdate, historyOf, key]

theorem proc_totalPositions (H : ℕ) (d : RawData) (now : ℤ) (st : ServerState)
    (h : validData d = true) :
    (processLocationUpdate H d now st).totalPositions = st.totalPositions + 1 := by
  simp [processLocationUpdate, h, broadcastUpdate]

/-- The `totalDevices` counter never moves: the guard
`!devicePositions.has(device_id)` is evaluated after the `set`. -/
theorem proc_totalDevices (H : ℕ) (d : RawData) (now : ℤ) (st : ServerState) :
    (processLocationUpdate H d now st).totalDevices = st.totalDevices := by
  by_cases h : validData d
  · simp [processLocationUpdate, h, broadcastUpdate, alookup_aset_self]
  · simp [processLocationUpdate, h]

theorem proc_wsClients (H : ℕ) (d : RawData) (now : ℤ) (st : ServerState) :
    (processLocationUpdate H d now st).wsClients = st.wsClients := by
  by_cases h : validData d
  · simp [processLocationUpdate, h, broadcastUpdate]
  · simp [processLocationUpdate, h]

theorem proc_inboxes (H : ℕ) (d : RawData) (now : ℤ) (st : ServerState)
    (h : validData d = true) :
    (processLocationUpdate H d now st).inboxes =
      st.wsClients.foldl
        (fun ib w => if w.isOpen then deliver ib w.sid (Msg.update (mkPosition d now)) else ib)
        st.inboxes := by
  simp [processLocationUpdate, h, broadcastUpdate]

theorem run_append (H : ℕ) (es : List Event) (e : Event) :
    run H (es ++ [e]) = step H (run H es) e := by
  simp [run, List.foldl_append]

theorem lastN_append_lastN (H : ℕ) (l : List Position) (p : Position) :
    lastN H (lastN H l ++ [p]) = lastN H (l ++ [p]) := by
  unfold lastN
  have h1 : l.length - H ≤ l.length := by omega
  rw [← List.drop_append_of_le_length h1, List.drop_drop]
  congr 1
  simp only [List.length_drop, List.length_append, List.length_singleton]
  omega

theorem lastN_length (H : ℕ) (l : List Position) :
    (lastN H l).length = min l.length H := by
  simp only [lastN, List.length_drop]
  omega

theorem getLast?_drop_of_lt {α : Type} (l : List α) (n : ℕ) (h : n < l.length) :
    (l.drop n).getLast? = l.getLast? := by
  induction l generalizing n with
  | nil => simp at h
  | cons a l ih =>
    cases n with
    | zero => rfl
    | succ n =>
      simp only [List.length_cons, Nat.succ_lt_succ_iff] at h
      rw [List.drop_succ_cons, ih n h]
      have hne : l ≠ [] := by
        intro hl
        subst hl
        simp at h
      cases l with
      | nil => exact absurd rfl hne
      | cons b l' => simp [List.getLast?_cons_cons]

theorem getLast?_lastN (H : ℕ) (hH : 0 < H) (l : List Position) :
    (lastN H l).getLast? = l.getLast? := by
  by_cases hl : l = []
  · subst hl
    simp [lastN]
  · have hlen : 0 < l.length := List.length_pos.mpr hl
    exact getLast?_drop_of_lt l (l.length - H) (by omega)

theorem wsConnect_devicePositions (sid : ℕ) (st : ServerState) :
    (wsConnect sid st).devicePositions = st.devicePositions := by
  by_cases h : 0 < st.devicePositions.length <;> simp [wsConnect, h]

theorem wsConnect_deviceHistory (sid : ℕ) (st : ServerState) :
    (wsConnect sid st).deviceHistory = st.deviceHistory := by
  by_cases h : 0 < st.devicePositions.length <;> simp [wsConnect, h]

theorem wsConnect_counters (sid : ℕ) (st : ServerState) :
    (wsConnect sid st).totalDevices = st.totalDevices ∧
      (wsConnect sid st).totalPositions = st.totalPositions := by
  by_cases h : 0 < st.devicePositions.length <;> simp [wsConnect, h]

theorem acceptedPositions_append (dev : JVal) (es : List Event) (e : Event) :
    acceptedPositions dev (es ++ [e]) =
      acceptedPositions dev es ++ acceptedPositions dev [e] := by
  simp [acceptedPositions, List.filterMap_append]

theorem acceptedIds_append (es : List Event) (e : Event) :
    acceptedIds (es ++ [e]) = acceptedIds es ++ acceptedIds [e] := by
  simp [acceptedIds, List.filterMap_append]

theorem historyOf_proc_self (H : ℕ) (d : RawData) (now : ℤ) (st : ServerState)
    (h : validData d = true) :
    historyOf d.device_id (processLocationUpdate H d now st) =
      lastN H (historyOf d.device_id st ++ [mkPosition d now]) := by
  unfold historyOf
  rw [proc_deviceHistory _ _ _ _ h, alookup_aset_self, Option.getD_some]
  rfl

theorem historyOf_proc_ne (H : ℕ) (d : RawData) (now : ℤ) (st : ServerState) (dev : JVal)
    (h : validData d = true) (hdev : dev ≠ d.device_id) :
    historyOf dev (processLocationUpdate H d now st) = historyOf dev st := by
  unfold historyOf
  rw [proc_deviceHistory _ _ _ _ h, alookup_aset_ne _ _ _ _ hdev]

/-- In-memory bounded history invariant: after any event sequence, each
device's history is exactly the last `H` of its accepted records. -/
theorem historyOf_run (H : ℕ) (es : List Event) (dev : JVal) :
    historyOf dev (run H es) = lastN H (acceptedPositions dev es) := by
  induction es using List.reverseRecOn with
  | nil => simp [run, initState, historyOf, alookup, acceptedPositions, lastN]
  | append_singleton es e ih =>
    rw [run_append, acceptedPositions_append]
    cases e with
    | ingest d now =>
      simp only [step]
      by_cases hv : validData d = true
      · by_cases hdev : d.device_id = dev
        · subst hdev
          have hacc :
              acceptedPositions d.device_id [Event.ingest d now] = [mkPosition d now] := by
            simp [acceptedPositions, hv]
          rw [hacc, historyOf_proc_self _ _ _ _ hv, ih, lastN_append_lastN]
        · have hacc : acceptedPositions dev [Event.ingest d now] = [] := by
            simp [acceptedPositions, hdev]
          rw [hacc, List.append_nil, historyOf_proc_ne _ _ _ _ _ hv (Ne.symm hdev), ih]
      · have hv' : validData d = false := by simpa using hv
        have hacc : acceptedPositions dev [Event.ingest d now] = [] := by
          simp [acceptedPositions, hv']
        rw [hacc, List.append_nil, proc_not_valid _ _ _ _ hv', ih]
    | connect sid =>
      have hacc : acceptedPositions dev [Event.connect sid] = [] := by
        simp [acceptedPositions]
      rw [hacc, List.append_nil]
      simp only [step]
      rw [historyOf, wsConnect_deviceHistory, ← historyOf, ih]
    | disconnect sid =>
      have hacc : acceptedPositions dev [Event.disconnect sid] = [] := by
        simp [acceptedPositions]
      rw [hacc, List.append_nil]
      simp only [step, wsDisconnect]
      exact ih

/-- Latest-position invariant: after any event sequence, the
`devicePositions` entry of each device is its last accepted record. -/
theorem latest_run (H : ℕ) (es : List Event) (dev : JVal) :
    alookup (run H es).devicePositions dev = (acceptedPositions dev es).getLast? := by
  induction es using List.reverseRecOn with
  | nil => simp [run, initState, alookup, acceptedPositions]
  | append_singleton es e ih =>
    rw [run_append, acceptedPositions_append]
    cases e with
    | ingest d now =>
      simp only [step]
      by_cases hv : validData d = true
      · by_cases hdev : d.device_id = dev
        · have hacc : acceptedPositions dev [Event.ingest d now] = [mkPosition d now] := by
            simp [acceptedPositions, hv, hdev]
          rw [hacc, proc_devicePositions _ _ _ _ hv, hdev, alookup_aset_self,
            List.getLast?_concat]
        · have hacc : acceptedPositions dev [Event.ingest d now] = [] := by
            simp [acceptedPositions, hdev]
          rw [hacc, List.append_nil, proc_devicePositions _ _ _ _ hv,
            alookup_aset_ne _ _ _ _ (Ne.symm hdev), ih]
      · have hv' : validData d = false := by simpa using hv
        have hacc : acceptedPositions dev [Event.ingest d now] = [] := by
          simp [acceptedPositions, hv']
        rw [hacc, List.append_nil, proc_not_valid _ _ _ _ hv', ih]
    | connect sid =>
      have hacc : acceptedPositions dev [Event.connect sid] = [] := by
        simp [acceptedPositions]
      rw [hacc, List.append_nil]
      simp only [step]
      rw [wsConnect_devicePositions, ih]
    | disconnect sid =>
      have hacc : acceptedPositions dev [Event.disconnect sid] = [] := by
        simp [acceptedPositions]
      rw [hacc, List.append_nil]
      simp only [step, wsDisconnect]
      exact ih

/-- The device keys of the snapshot map are pairwise distinct. -/
theorem keys_run_nodup (H : ℕ) (es : List Event) :
    (((run H es).devicePositions).map Prod.fst).Nodup := by
  induction es using List.reverseRecOn with
  | nil => simp [run, initState]
  | append_singleton es e ih =>
    rw [run_append]
    cases e with
    | ingest d now =>
      simp only [step]
      by_cases hv : validData d = true
      · rw [proc_devicePositions _ _ _ _ hv]
        exact nodup_keys_aset _ _ _ ih
      · have hv' : validData d = false := by simpa using hv
        rw [proc_not_valid _ _ _ _ hv']
        exact ih
    | connect sid =>
      simp only [step]
      rw [wsConnect_devicePositions]
      exact ih
    | disconnect sid =>
      simp only [step, wsDisconnect]
      exact ih

/-- A device has a snapshot entry exactly when it has an accepted record. -/
theorem keys_run_mem (H : ℕ) (es : List Event) (dev : JVal) :
    dev ∈ ((run H es).devicePositions).map Prod.fst ↔ dev ∈ acceptedIds es := by
  induction es using List.reverseRecOn generalizing dev with
  | nil => simp [run, initState, acceptedIds]
  | append_singleton es e ih =>
    rw [run_append, acceptedIds_append]
    cases e with
    | ingest d now =>
      simp only [step]
      by_cases hv : validData d = true
      · have hid : acceptedIds [Event.ingest d now] = [d.device_id] := by
          simp [acceptedIds, hv]
        rw [proc_devicePositions _ _ _ _ hv, hid, keys_aset]
        by_cases hm : d.device_id ∈ (run H es).devicePositions.map Prod.fst
        · rw [if_pos hm, ih dev]
          simp only [List.mem_append, List.mem_singleton]
          constructor
          · exact Or.inl
          · rintro (h | rfl)
            · exact h
            · exact (ih d.device_id).mp hm
        · rw [if_neg hm]
          simp [List.mem_append, ih dev]
      · have hv' : validData d = false := by simpa using hv
        have hid : acceptedIds [Event.ingest d now] = [] := by
          simp [acceptedIds, hv']
        rw [hid, List.append_nil, proc_not_valid _ _ _ _ hv', ih]
    | connect sid =>
      have hid : acceptedIds [Event.connect sid] = [] := by simp [acceptedIds]
      rw [hid, List.append_nil]
      simp only [step]
      rw [wsConnect_devicePositions, ih dev]
    | disconnect sid =>
      have hid : acceptedIds [Event.disconnect sid] = [] := by simp [acceptedIds]
      rw [hid, List.append_nil]
      simp only [step, wsDisconnect]
      exact ih dev

/-- C1: for every device, after any event sequence with
`historyPoints = H`, the in-memory history is exactly the most recent
`min(N, H)` accepted records in arrival order (`N` = number of accepted
records for that device); in particular its length is `min N H` and
never exceeds `H`. -/
theorem C1_bounded_history (H : ℕ) (es : List Event) (dev : JVal) :
    historyOf dev (run H es) = lastN H (acceptedPositions dev es) ∧
      (historyOf dev (run H es)).length = min (acceptedPositions dev es).length H ∧
      (historyOf dev (run H es)).length ≤ H := by
  refine ⟨historyOf_run H es dev, ?_, ?_⟩
  · rw [historyOf_run, lastN_length]
  · rw [historyOf_run, lastN_length]
    omega

/-- C2: after any event sequence the snapshot (`GET /api/positions`, the
values of `devicePositions`) has pairwise-distinct device keys, one
entry exactly for each device with at least one accepted record, each
entry being that device's most recently accepted record; hence the
snapshot has exactly K entries where K is the number of distinct devices
with an accepted record. -/
theorem C2_snapshot_completeness (H : ℕ) (es : List Event) :
    (∀ dev, alookup (run H es).devicePositions dev = (acceptedPositions dev es).getLast?) ∧
      ((run H es).devicePositions.map Prod.fst).Nodup ∧
      (∀ dev, dev ∈ (run H es).devicePositions.map Prod.fst ↔ dev ∈ acceptedIds es) ∧
      (run H es).devicePositions.length = (acceptedIds es).dedup.length := by
  refine ⟨fun dev => latest_run H es dev, keys_run_nodup H es,
    fun dev => keys_run_mem H es dev, ?_⟩
  have hperm : ((run H es).devicePositions.map Prod.fst).Perm (acceptedIds es).dedup := by
    rw [List.perm_ext_iff_of_nodup (keys_run_nodup H es) (List.nodup_dedup _)]
    intro a
    rw [keys_run_mem, List.mem_dedup]
  simpa using hperm.length_eq

/-- C9: after every event sequence (with a positive configured history
bound), the latest position in `devicePositions` equals the last element
of that device's `deviceHistory` array, and a device has a
`devicePositions` entry iff its history is non-empty (both sides of the
stated equation are `none` exactly together). -/
theorem C9_latest_is_last_of_history (H : ℕ) (es : List Event) (dev : JVal) (hH : 0 < H) :
    alookup (run H es).devicePositions dev = (historyOf dev (run H es)).getLast? := by
  rw [latest_run, historyOf_run, getLast?_lastN H hH]

/-- Witness for C9 at a concrete positive bound and event sequence. -/
theorem C9_witness :
    0 < 2 ∧
      alookup (run 2 [Event.ingest dD1 5]).devicePositions (.str "D1") =
        (historyOf (.str "D1") (run 2 [Event.ingest dD1 5])).getLast? :=
  ⟨by decide, C9_latest_is_last_of_history 2 [Event.ingest dD1 5] (.str "D1") (by decide)⟩

/-- `totalPositions` counts exactly the accepted records. -/
theorem totalPositions_run (H : ℕ) (es : List Event) :
    (run H es).totalPositions = (acceptedIds es).length := by
  induction es using List.reverseRecOn with
  | nil => simp [run, initState, acceptedIds]
  | append_singleton es e ih =>
    rw [run_append, acceptedIds_append]
    cases e with
    | ingest d now =>
      simp only [step]
      by_cases hv : validData d = true
      · have hid : acceptedIds [Event.ingest d now] = [d.device_id] := by
          simp [acceptedIds, hv]
        rw [proc_totalPositions _ _ _ _ hv, hid, ih]
        simp
      · have hv' : validData d = false := by simpa using hv
        have hid : acceptedIds [Event.ingest d now] = [] := by
          simp [acceptedIds, hv']
        rw [hid, List.append_nil, proc_not_valid _ _ _ _ hv', ih]
    | connect sid =>
      have hid : acceptedIds [Event.connect sid] = [] := by simp [acceptedIds]
      rw [hid, List.append_nil]
      simp only [step]
      rw [(wsConnect_counters sid _).2, ih]
    | disconnect sid =>
      have hid : acceptedIds [Event.disconnect sid] = [] := by simp [acceptedIds]
      rw [hid, List.append_nil]
      simp only [step, wsDisconnect]
      exact ih

/-- `totalDevices` never leaves its initial value 0: the
`!devicePositions.has(device_id)` check in the source runs after
`devicePositions.set(device_id, position)`, so it is always false. -/
theorem totalDevices_run (H : ℕ) (es : List Event) :
    (run H es).totalDevices = 0 := by
  induction es using List.reverseRecOn with
  | nil => simp [run, initState]
  | append_singleton es e ih =>
    rw [run_append]
    cases e with
    | ingest d now =>
      simp only [step]
      rw [proc_totalDevices, ih]
    | connect sid =>
      simp only [step]
      rw [(wsConnect_counters sid _).1, ih]
    | disconnect sid =>
      simp only [step, wsDisconnect]
      exact ih

/-- C3 counterexample: a payload in which `device_id`, `lat` and `lng`
are all present and all coercible to numbers (`lat` is the number 0) is
nevertheless rejected — the state is left untouched, whereas every
accepted payload increments `totalPositions`.  So "rejects exactly when
`device_id`, `lat` or `lng` is missing or not coercible" is false. -/
theorem C3_counterexample :
    dLatZero.device_id ≠ .null ∧ dLatZero.lat ≠ .null ∧ dLatZero.lng ≠ .null ∧
      (jsParseFloat dLatZero.lat).isSome = true ∧
      (jsParseFloat dLatZero.lng).isSome = true ∧
      processLocationUpdate 500 dLatZero 1000 initState = initState :=
  ⟨by decide, by decide, by decide, by decide, by decide, rfl⟩

/-- C3 (amended): `processLocationUpdate` rejects (leaves the state
unchanged) exactly when `device_id`, `lat` or `lng` is JS-falsy —
absent, `0`, or the empty string; a truthy non-numeric `lat` is
accepted (stored as `NaN`).  The spec's two concrete examples do behave
as stated: `{lat: 40.0}` is rejected, and the full `"D1"` example is
accepted with `speed = 0`, `heading = 0`, `sats = 0`, `ts = now`. -/
theorem C3_validation_boundary (H : ℕ) (d : RawData) (now now2 : ℤ) (st : ServerState) :
    (processLocationUpdate H d now st = st ↔
      (truthy d.device_id && truthy d.lat && truthy d.lng) = false) ∧
      validData dLatAbc = true ∧ (mkPosition dLatAbc now).lat = none ∧
      processLocationUpdate H dLatOnly now2 st = st ∧
      validData dExample = true ∧
      mkPosition dExample now =
        { device_id := .str "D1", lat := some latD1, lng := some lngD1,
          speed := 0, heading := 0, sats := 0, timestamp := .num (now : ℚ) } ∧
      latD1 = 407128 / 10000 ∧ lngD1 = -740060 / 10000 := by
  refine ⟨⟨?_, ?_⟩, rfl, rfl, ?_, rfl, rfl, ?_, ?_⟩
  · intro hst
    by_contra hv
    have hv' : validData d = true := by
      cases h4 : validData d
      · exact absurd h4 hv
      · rfl
    have := proc_totalPositions H d now st hv'
    rw [hst] at this
    omega
  · intro hv
    exact proc_not_valid _ _ _ _ hv
  · exact proc_not_valid _ _ _ _ rfl
  · unfold latD1
    rw [Rat.mk'_eq_divInt, Rat.divInt_eq_div]
    norm_num
  · unfold lngD1
    rw [Rat.mk'_eq_divInt, Rat.divInt_eq_div]
    norm_num

/-- C6 counterexample: with `ts = "abc"` (non-numeric: `parseFloat`
gives `NaN`) the stored timestamp is the string itself, not the
ingestion wall clock, because the source computes `ts || Date.now()`
without any numeric coercion of `ts`. -/
theorem C6_counterexample :
    jsParseFloat (.str "abc") = none ∧
      (mkPosition dTsStr 1234).timestamp = .str "abc" ∧
      (mkPosition dTsStr 1234).timestamp ≠ .num 1234 :=
  ⟨rfl, rfl, by decide⟩

/-- C6 (amended): `speed`, `heading` and `sats` default to 0 whenever
absent or non-numeric and never cause rejection (acceptance does not
depend on them), but the timestamp defaults to the ingestion wall clock
exactly when `ts` is JS-falsy (absent, `0`, or `""`); a truthy
non-numeric `ts` is stored verbatim. -/
theorem C6_optional_field_defaults (d : RawData) (now : ℤ) :
    (jsParseFloat d.speed = none → (mkPosition d now).speed = 0) ∧
      (jsParseInt d.heading = none → (mkPosition d now).heading = 0) ∧
      (jsParseInt d.sats = none → (mkPosition d now).sats = 0) ∧
      validData { d with speed := .null, heading := .null, sats := .null, ts := .null } =
        validData d ∧
      (truthy d.ts = false → (mkPosition d now).timestamp = .num (now : ℚ)) ∧
      (truthy d.ts = true → (mkPosition d now).timestamp = d.ts) := by
  refine ⟨?_, ?_, ?_, rfl, ?_, ?_⟩
  · intro h
    simp [mkPosition, h]
  · intro h
    simp [mkPosition, h]
  · intro h
    simp [mkPosition, h]
  · intro h
    simp [mkPosition, h]
  · intro h
    simp [mkPosition, h]

/-- Witness for C6 at a concrete payload with all optional fields
absent. -/
theorem C6_witness :
    jsParseFloat dD1.speed = none ∧ (mkPosition dD1 7).speed = 0 ∧
      jsParseInt dD1.heading = none ∧ (mkPosition dD1 7).heading = 0 ∧
      jsParseInt dD1.sats = none ∧ (mkPosition dD1 7).sats = 0 ∧
      truthy dD1.ts = false ∧ (mkPosition dD1 7).timestamp = .num ((7 : ℤ) : ℚ) :=
  ⟨rfl, (C6_optional_field_defaults dD1 7).1 rfl,
    rfl, (C6_optional_field_defaults dD1 7).2.1 rfl,
    rfl, (C6_optional_field_defaults dD1 7).2.2.1 rfl,
    rfl, (C6_optional_field_defaults dD1 7).2.2.2.2.1 rfl⟩

/-- C7: the `totalPositions` half of the stats claim holds — it counts
exactly the accepted records — but `totalDevices` never moves from 0:
the "previously unseen" check `!devicePositions.has(device_id)` runs
after `devicePositions.set(device_id, position)`, so it is always
false.  At the failing input (one accepted record from fresh start) the
server knows 1 device yet reports `totalDevices = 0`. -/
theorem C7_totalDevices_never_increments :
    (∀ H es, (run H es).totalPositions = (acceptedIds es).length) ∧
      (∀ H es, (run H es).totalDevices = 0) ∧
      validData dD1 = true ∧
      (run 500 [Event.ingest dD1 1000]).totalPositions = 1 ∧
      (run 500 [Event.ingest dD1 1000]).devicePositions.length = 1 ∧
      (run 500 [Event.ingest dD1 1000]).totalDevices = 0 :=
  ⟨totalPositions_run, totalDevices_run, rfl, rfl, rfl, rfl⟩

/-- One sink's delivered messages after `wsConnect` of that same sink:
the on-connect snapshot is appended exactly when devices exist. -/
theorem inboxOf_wsConnect_self (sid : ℕ) (st : ServerState) :
    inboxOf sid (wsConnect sid st) =
      if 0 < st.devicePositions.length then
        inboxOf sid st ++ [Msg.snapshot (st.devicePositions.map Prod.snd)]
      else inboxOf sid st := by
  unfold wsConnect inboxOf
  by_cases h : 0 < st.devicePositions.length
  · simp [h, getD_alookup_deliver_self]
  · simp [h]

/-- C4: for an accepted record, exactly one `update` message containing
exactly that record is delivered to each sink registered and open at the
moment of acceptance; a registered-but-closed sink receives nothing; a
sink not registered (e.g. removed before the publish) receives nothing;
and a sink added after acceptance receives only the on-connect snapshot
(sent only when devices exist) — no replay of the accepted record. -/
theorem C4_broadcast_fanout (H : ℕ) (d : RawData) (now : ℤ) (st : ServerState)
    (hv : validData d = true) (hnd : (st.wsClients.map Sink.sid).Nodup) :
    (∀ w ∈ st.wsClients, w.isOpen = true →
        inboxOf w.sid (processLocationUpdate H d now st) =
          inboxOf w.sid st ++ [Msg.update (mkPosition d now)]) ∧
      (∀ w ∈ st.wsClients, w.isOpen = false →
        inboxOf w.sid (processLocationUpdate H d now st) = inboxOf w.sid st) ∧
      (∀ sid, sid ∉ st.wsClients.map Sink.sid →
        inboxOf sid (processLocationUpdate H d now st) = inboxOf sid st) ∧
      (∀ sid, sid ∉ st.wsClients.map Sink.sid → inboxOf sid st = [] →
        inboxOf sid (wsConnect sid (processLocationUpdate H d now st)) =
          if 0 < (processLocationUpdate H d now st).devicePositions.length then
            [Msg.snapshot ((processLocationUpdate H d now st).devicePositions.map Prod.snd)]
          else []) := by
  have hbox : ∀ sid, inboxOf sid (processLocationUpdate H d now st) =
      inboxOf sid st ++
        (if openMem st.wsClients sid then [Msg.update (mkPosition d now)] else []) := by
    intro sid
    unfold inboxOf
    rw [proc_inboxes _ _ _ _ hv]
    exact inbox_broadcast_foldl st.wsClients _ st.inboxes sid hnd
  refine ⟨?_, ?_, ?_, ?_⟩
  · intro w hw hopen
    have ho : openMem st.wsClients w.sid = true := by
      rw [openMem, List.any_eq_true]
      exact ⟨w, hw, by simp [hopen]⟩
    rw [hbox, ho]
    simp
  · intro w hw hopen
    have ho : openMem st.wsClients w.sid = false := by
      rw [openMem, List.any_eq_false]
      intro x hx
      simp only [Bool.and_eq_true, beq_iff_eq, not_and]
      intro hxsid
      have hxw : x = w := List.inj_on_of_nodup_map hnd hx hw hxsid
      subst hxw
      simp [hopen]
    rw [hbox, ho]
    simp
  · intro sid hsid
    have ho : openMem st.wsClients sid = false := by
      rw [openMem, List.any_eq_false]
      intro x hx
      simp only [Bool.and_eq_true, beq_iff_eq, not_and]
      intro hxsid
      exact (hsid (hxsid ▸ List.mem_map_of_mem Sink.sid hx)).elim
    rw [hbox, ho]
    simp
  · intro sid hsid hempty
    have ho : openMem st.wsClients sid = false := by
      rw [openMem, List.any_eq_false]
      intro x hx
      simp only [Bool.and_eq_true, beq_iff_eq, not_and]
      intro hxsid
      exact (hsid (hxsid ▸ List.mem_map_of_mem Sink.sid hx)).elim
    have hafter : inboxOf sid (processLocationUpdate H d now st) = [] := by
      rw [hbox, ho]
      simp [hempty]
    rw [inboxOf_wsConnect_self, hafter]
    by_cases hlen : 0 < (processLocationUpdate H d now st).devicePositions.length
    · simp [hlen]
    · simp [hlen]

/-- Witness for C4 at a concrete accepted record and registry: sink 1
(open) gets exactly the one update, sink 2 (closed) and the absent sink
7 get nothing, and sink 7 connecting afterwards gets only a snapshot. -/
theorem C4_witness :
    validData dD1 = true ∧ ((stC4.wsClients.map Sink.sid).Nodup) ∧
      inboxOf 1 (processLocationUpdate 5 dD1 3 stC4) =
        inboxOf 1 stC4 ++ [Msg.update (mkPosition dD1 3)] ∧
      inboxOf 2 (processLocationUpdate 5 dD1 3 stC4) = inboxOf 2 stC4 ∧
      inboxOf 7 (processLocationUpdate 5 dD1 3 stC4) = inboxOf 7 stC4 ∧
      inboxOf 7 (wsConnect 7 (processLocationUpdate 5 dD1 3 stC4)) =
        if 0 < (processLocationUpdate 5 dD1 3 stC4).devicePositions.length then
          [Msg.snapshot ((processLocationUpdate 5 dD1 3 stC4).devicePositions.map Prod.snd)]
        else [] :=
  ⟨rfl, by decide,
    (C4_broadcast_fanout 5 dD1 3 stC4 rfl (by decide)).1 ⟨1, true⟩ (by decide) rfl,
    (C4_broadcast_fanout 5 dD1 3 stC4 rfl (by decide)).2.1 ⟨2, false⟩ (by decide) rfl,
    (C4_broadcast_fanout 5 dD1 3 stC4 rfl (by decide)).2.2.1 7 (by decide),
    (C4_broadcast_fanout 5 dD1 3 stC4 rfl (by decide)).2.2.2 7 (by decide) rfl⟩

/-- C5: a `/api/track` request whose body passes the required-field
check but whose token (header or query) does not equal the shared
secret is answered 401 with the state untouched: `devicePositions`,
`deviceHistory` and every subscriber's delivered messages are unchanged,
so nothing is broadcast. -/
theorem C5_token_rejection (H : ℕ) (secret : String) (req : TrackRequest) (now : ℤ)
    (st : ServerState) (hbody : validData req.body = true)
    (htok : resolveToken req ≠ some secret) :
    handleTrack H secret req now st = (.unauthorized, st) ∧
      (handleTrack H secret req now st).2.devicePositions = st.devicePositions ∧
      (handleTrack H secret req now st).2.deviceHistory = st.deviceHistory ∧
      ∀ sid, inboxOf sid (handleTrack H secret req now st).2 = inboxOf sid st := by
  have h : handleTrack H secret req now st = (.unauthorized, st) := by
    simp [handleTrack, hbody, htok]
  exact ⟨h, by rw [h], by rw [h], fun sid => by rw [h]⟩

/-- Witness for C5 at a concrete request and secret. -/
theorem C5_witness :
    validData reqBadToken.body = true ∧
      resolveToken reqBadToken ≠ some "secret_token" ∧
      handleTrack 500 "secret_token" reqBadToken 9 initState =
        (.unauthorized, initState) :=
  ⟨rfl, by decide,
    (C5_token_rejection 500 "secret_token" reqBadToken 9 initState rfl (by decide)).1⟩

/-- C10: the required-field check runs before the token check — a body
with a falsy required field gets 400 regardless of the token, and a 401
can only happen when the body passed the required-field check; in both
rejection cases the state is returned unmodified. -/
theorem C10_required_check_before_token (H : ℕ) (secret : String) (req : TrackRequest)
    (now : ℤ) (st : ServerState) :
    (validData req.body = false → handleTrack H secret req now st = (.badRequest, st)) ∧
      ((handleTrack H secret req now st).1 = .unauthorized →
        validData req.body = true ∧ (handleTrack H secret req now st).2 = st) := by
  constructor
  · intro h
    simp [handleTrack, h]
  · intro h
    by_cases hb : validData req.body = false
    · rw [handleTrack, if_pos hb] at h
      simp at h
    · have hb' : validData req.body = true := by
        cases h4 : validData req.body
        · exact absurd h4 hb
        · rfl
      by_cases ht : resolveToken req = some secret
      · rw [handleTrack, if_neg hb, if_neg (by simpa using ht)] at h
        simp at h
      · refine ⟨hb', ?_⟩
        rw [handleTrack, if_neg hb, if_pos (by simpa using ht)]

/-- Witness for C10: the incomplete body gets 400 (not 401) even though
its token is also absent, and the state is unchanged. -/
theorem C10_witness :
    validData reqMissing.body = false ∧
      handleTrack 500 "secret_token" reqMissing 9 initState = (.badRequest, initState) :=
  ⟨rfl, (C10_required_check_before_token 500 "secret_token" reqMissing 9 initState).1 rfl⟩

/-- A list with pairwise-distinct elements that injects into another
list is no longer than it. -/
theorem nodup_subset_length_le {α : Type} [DecidableEq α] {l m : List α}
    (hl : l.Nodup) (hsub : l ⊆ m) : l.length ≤ m.length := by
  induction l generalizing m with
  | nil => simp
  | cons x l2 ih =>
    rw [List.nodup_cons] at hl
    have hxm : x ∈ m := hsub (List.mem_cons_self x l2)
    have hsub2 : l2 ⊆ m.erase x := by
      intro y hy
      rw [List.mem_erase_of_ne (fun hyx => hl.1 (by rw [← hyx]; exact hy))]
      exact hsub (List.mem_cons_of_mem x hy)
    have hlen := ih hl.2 hsub2
    have herase : (m.erase x).length = m.length - 1 := List.length_erase_of_mem hxm
    have hpos : 0 < m.length := List.length_pos.mpr (by rintro rfl; simp at hxm)
    simp only [List.length_cons]
    omega

/-- In a sorted row list with pairwise-distinct rowids, a row is among
the first `H` exactly when fewer than `H` rows sort strictly before it. -/
theorem mem_take_iff_countLT (s : List Row) (hs : List.Sorted rowLE s)
    (hnd : (s.map Row.rid).Nodup) (r : Row) (hr : r ∈ s) (H : ℕ) :
    r ∈ s.take H ↔ (s.filter (fun x => decide (rowLT x r))).length < H := by
  induction s generalizing H with
  | nil => simp at hr
  | cons a s2 ih =>
    rw [List.sorted_cons] at hs
    obtain ⟨ha, hs2⟩ := hs
    simp only [List.map_cons, List.nodup_cons] at hnd
    obtain ⟨hand, hnd2⟩ := hnd
    rcases List.mem_cons.mp hr with hra | hrs2
    · subst hra
      have hfilt : (r :: s2).filter (fun x => decide (rowLT x r)) = [] := by
        rw [List.filter_eq_nil_iff]
        intro x hx
        simp only [decide_eq_true_eq]
        rcases List.mem_cons.mp hx with hxa | hxs2
        · subst hxa
          unfold rowLT
          omega
        · have hle := ha x hxs2
          have hne : r.rid ≠ x.rid :=
            fun he => hand (he ▸ List.mem_map_of_mem Row.rid hxs2)
          unfold rowLE at hle
          unfold rowLT
          omega
      rw [hfilt]
      cases H with
      | zero => simp
      | succ H2 => simp [List.take_succ_cons]
    · have hne : a.rid ≠ r.rid :=
        fun he => hand (he ▸ List.mem_map_of_mem Row.rid hrs2)
      have halt : rowLT a r := by
        have hle := ha r hrs2
        unfold rowLE at hle
        unfold rowLT
        omega
      have hfilt : (a :: s2).filter (fun x => decide (rowLT x r)) =
          a :: s2.filter (fun x => decide (rowLT x r)) := by
        simp [List.filter_cons, halt]
      rw [hfilt]
      cases H with
      | zero => simp
      | succ H2 =>
        rw [List.take_succ_cons]
        simp only [List.mem_cons, List.length_cons]
        have hrne : r ≠ a := fun he => hne (congrArg Row.rid he.symm)
        constructor
        · rintro (he | hmem)
          · exact absurd he hrne
          · have := (ih hs2 hnd2 hrs2 H2).mp hmem
            omega
        · intro hlen
          right
          exact (ih hs2 hnd2 hrs2 H2).mpr (by omega)

/-- The device's surviving rows are the device rows whose id the inner
SELECT kept. -/
theorem rowsOf_prune (H : ℕ) (did : JVal) (tbl : List Row) :
    rowsOf did (pruneDevice H did tbl) =
      (rowsOf did tbl).filter (fun r => decide (r.rid ∈ keepIds H did tbl)) := by
  unfold rowsOf pruneDevice
  rw [List.filter_filter, List.filter_filter]
  apply List.filter_congr
  intro x hx
  by_cases hdev : x.device_id = did
  · simp [hdev, Bool.and_comm]
  · simp [hdev]

/-- Pruning a device with at most `H` rows deletes nothing. -/
theorem prune_of_le (H : ℕ) (did : JVal) (tbl : List Row)
    (hle : (rowsOf did tbl).length ≤ H) : pruneDevice H did tbl = tbl := by
  unfold pruneDevice
  rw [List.filter_eq_self]
  intro r hr
  simp only [decide_eq_true_eq]
  by_cases hdev : r.device_id = did
  · right
    have hmem : r ∈ rowsOf did tbl := by
      unfold rowsOf
      rw [List.mem_filter]
      exact ⟨hr, by simp [hdev]⟩
    have hperm := List.perm_insertionSort rowLE (rowsOf did tbl)
    have hlen : (sortRows (rowsOf did tbl)).length = (rowsOf did tbl).length :=
      hperm.length_eq
    unfold keepIds
    rw [List.take_of_length_le (by rw [hlen]; exact hle)]
    exact List.mem_map_of_mem Row.rid (hperm.mem_iff.mpr hmem)
  · left
    exact hdev

/-- After pruning, the device has at most `H` rows. -/
theorem rowsOf_prune_length_le (H : ℕ) (did : JVal) (tbl : List Row)
    (hnd : (tbl.map Row.rid).Nodup) :
    (rowsOf did (pruneDevice H did tbl)).length ≤ H := by
  rw [rowsOf_prune]
  have hsub1 : ((rowsOf did tbl).filter
      (fun r => decide (r.rid ∈ keepIds H did tbl))).Sublist (rowsOf did tbl) :=
    List.filter_sublist _
  have hsub2 : (rowsOf did tbl).Sublist tbl := List.filter_sublist _
  have h1 : (((rowsOf did tbl).filter
      (fun r => decide (r.rid ∈ keepIds H did tbl))).map Row.rid).Nodup :=
    hnd.sublist ((hsub1.trans hsub2).map Row.rid)
  have h2 : (((rowsOf did tbl).filter
      (fun r => decide (r.rid ∈ keepIds H did tbl))).map Row.rid) ⊆ keepIds H did tbl := by
    intro x hx
    rw [List.mem_map] at hx
    obtain ⟨r, hr, hrid⟩ := hx
    rw [List.mem_filter] at hr
    exact hrid ▸ of_decide_eq_true hr.2
  have h3 := nodup_subset_length_le h1 h2
  have h4 : (keepIds H did tbl).length ≤ H := by
    unfold keepIds
    rw [List.length_map, List.length_take]
    exact min_le_left _ _
  rw [← List.length_map ((rowsOf did tbl).filter
      (fun r => decide (r.rid ∈ keepIds H did tbl))) Row.rid]
  exact le_trans h3 h4

/-- Rows of other devices always survive the prune. -/
theorem prune_other (H : ℕ) (did : JVal) (tbl : List Row) (r : Row)
    (hr : r ∈ tbl) (hdev : r.device_id ≠ did) : r ∈ pruneDevice H did tbl := by
  unfold pruneDevice
  rw [List.mem_filter]
  exact ⟨hr, by simp [hdev]⟩

/-- A device row survives the prune exactly when fewer than `H` of the
device's rows are greater under (timestamp, rowid) — i.e. the kept rows
are exactly the `H` greatest by timestamp, ties keeping the newest
rowids (the tied rows with the oldest rowids are the deleted ones). -/
theorem prune_mem_iff (H : ℕ) (did : JVal) (tbl : List Row)
    (hnd : (tbl.map Row.rid).Nodup) (r : Row) (hr : r ∈ tbl)
    (hdev : r.device_id = did) :
    r ∈ pruneDevice H did tbl ↔
      ((rowsOf did tbl).filter (fun x => decide (rowLT x r))).length < H := by
  have hmemrows : r ∈ rowsOf did tbl := by
    unfold rowsOf
    rw [List.mem_filter]
    exact ⟨hr, by simp [hdev]⟩
  have hperm := List.perm_insertionSort rowLE (rowsOf did tbl)
  have hsortmem : r ∈ sortRows (rowsOf did tbl) := hperm.mem_iff.mpr hmemrows
  have hnd2 : ((sortRows (rowsOf did tbl)).map Row.rid).Nodup := by
    have hb : ((rowsOf did tbl).map Row.rid).Nodup :=
      hnd.sublist ((List.filter_sublist _).map Row.rid)
    exact ((hperm.map Row.rid).nodup_iff).mpr hb
  have hsorted : List.Sorted rowLE (sortRows (rowsOf did tbl)) :=
    List.sorted_insertionSort rowLE _
  have hrank := mem_take_iff_countLT (sortRows (rowsOf did tbl)) hsorted hnd2 r hsortmem H
  have hflen : ((sortRows (rowsOf did tbl)).filter (fun x => decide (rowLT x r))).length =
      ((rowsOf did tbl).filter (fun x => decide (rowLT x r))).length :=
    (hperm.filter _).length_eq
  constructor
  · intro hmem
    unfold pruneDevice at hmem
    rw [List.mem_filter] at hmem
    rcases of_decide_eq_true hmem.2 with hcon | hk
    · exact absurd hdev hcon
    · unfold keepIds at hk
      rw [List.mem_map] at hk
      obtain ⟨x, hx, hxr⟩ := hk
      have hxtbl : x ∈ tbl := by
        have h5 : x ∈ sortRows (rowsOf did tbl) := List.mem_of_mem_take hx
        have h6 : x ∈ rowsOf did tbl := hperm.mem_iff.mp h5
        unfold rowsOf at h6
        exact (List.mem_filter.mp h6).1
      have hxe : x = r := List.inj_on_of_nodup_map hnd hxtbl hr hxr
      subst hxe
      rw [← hflen]
      exact hrank.mp hx
  · intro hlen
    unfold pruneDevice
    rw [List.mem_filter]
    refine ⟨hr, ?_⟩
    rw [decide_eq_true_eq]
    right
    unfold keepIds
    rw [← hflen] at hlen
    exact List.mem_map_of_mem Row.rid (hrank.mpr hlen)

/-- C8: `cleanupSQL` keeps, for each device, exactly the `historyPoints`
rows greatest by timestamp (a device row survives iff fewer than `H`
device rows sort strictly above it under timestamp-descending order
with ties by rowid descending, so tied rows with the oldest rowids are
deleted first), other devices' rows are untouched, pruning a device at
or below the bound deletes nothing, and pruning is idempotent. -/
theorem C8_prune_keeps_newest (H : ℕ) (did : JVal) (tbl : List Row)
    (hnd : (tbl.map Row.rid).Nodup) :
    (∀ r ∈ tbl, r.device_id = did →
        (r ∈ pruneDevice H did tbl ↔
          ((rowsOf did tbl).filter (fun x => decide (rowLT x r))).length < H)) ∧
      (∀ r ∈ tbl, r.device_id ≠ did → r ∈ pruneDevice H did tbl) ∧
      ((rowsOf did tbl).length ≤ H → pruneDevice H did tbl = tbl) ∧
      pruneDevice H did (pruneDevice H did tbl) = pruneDevice H did tbl :=
  ⟨fun r hr hdev => prune_mem_iff H did tbl hnd r hr hdev,
    fun r hr hdev => prune_other H did tbl r hr hdev,
    fun hle => prune_of_le H did tbl hle,
    prune_of_le H did _ (rowsOf_prune_length_le H did tbl hnd)⟩

/-- Witness for C8 at a concrete table: with `H = 1` the tie on
timestamp 10 is resolved by keeping rowid 2 and deleting rowid 1 (the
oldest tied rowid) as well as rowid 3, row 4 (other device) survives,
and pruning is idempotent. -/
theorem C8_witness :
    ((tbl0.map Row.rid).Nodup) ∧
      pruneDevice 1 (.str "A") tbl0 = [⟨2, .str "A", 10⟩, ⟨4, .str "B", 7⟩] ∧
      pruneDevice 1 (.str "A") (pruneDevice 1 (.str "A") tbl0) =
        pruneDevice 1 (.str "A") tbl0 :=
  ⟨by decide, by decide, (C8_prune_keeps_newest 1 (.str "A") tbl0 (by decide)).2.2.2⟩

end GPSTracker

